import Mathlib

/-!
Verification of the resource-lifecycle and admission-control subsystem of the
copernicus-cdsapi-webui repository (file `enhanced_era5.py`), against its
natural-language specification.  Each Python function relevant to the claims
is shallowly embedded as an executable Lean definition; timestamps (Python
`time.time()` / `datetime`) are modelled as rationals, machine integers as
`Nat`/`Int`, and the filesystem as explicit state.
-/

namespace Era5

/-! ### Size-tier expiry table (`EnhancedDownloadManager.get_expiry_hours`)

The Python function iterates an insertion-ordered dict of tiers
tiny ≤ 10MB → 2h, small ≤ 50MB → 4h, medium ≤ 200MB → 8h, large ≤ 500MB → 12h,
xlarge ≤ 1000MB → 24h, huge ≤ inf → 48h, returning the first tier whose
`max_size_mb` bound is ≥ the file size.  Since the last bound is infinite the
loop always returns; the trailing `return ... xlarge ...` line is unreachable.
File sizes are rationals (Python floats holding a byte count / 2^20). -/

def get_expiry_hours (fileSizeMb : ℚ) : ℕ :=
  if fileSizeMb ≤ 10 then 2
  else if fileSizeMb ≤ 50 then 4
  else if fileSizeMb ≤ 200 then 8
  else if fileSizeMb ≤ 500 then 12
  else if fileSizeMb ≤ 1000 then 24
  else 48

/-- The tier index (0 = tiny … 5 = huge) a size falls into, following the same
iteration order as the source dict. -/
def tierIdx (s : ℚ) : ℕ :=
  if s ≤ 10 then 0
  else if s ≤ 50 then 1
  else if s ≤ 200 then 2
  else if s ≤ 500 then 3
  else if s ≤ 1000 then 4
  else 5

/-- Expiry hours as a function of the tier index. -/
def tierHours : ℕ → ℕ
  | 0 => 2
  | 1 => 4
  | 2 => 8
  | 3 => 12
  | 4 => 24
  | _ => 48

/-- Modelled from the spec's words (for the refinement part of claim C5): the
finite tier table, ascending, and the rule "the expiry of the smallest tier
whose max-size bound is ≥ the size; otherwise the unbounded tier's 48h". -/
def specTierTable : List (ℚ × ℕ) := [(10, 2), (50, 4), (200, 8), (500, 12), (1000, 24)]

def specExpiry (s : ℚ) : ℕ :=
  ((specTierTable.find? fun t => decide (s ≤ t.1)).map Prod.snd).getD 48

lemma get_expiry_hours_eq_tierHours (s : ℚ) : get_expiry_hours s = tierHours (tierIdx s) := by
  unfold get_expiry_hours tierIdx
  split_ifs <;> rfl

lemma tierIdx_mono {s₁ s₂ : ℚ} (h : s₁ ≤ s₂) : tierIdx s₁ ≤ tierIdx s₂ := by
  unfold tierIdx
  split_ifs <;> first | omega | linarith

lemma tierHours_mono {n m : ℕ} (h : n ≤ m) : tierHours n ≤ tierHours m := by
  rcases n with _ | _ | _ | _ | _ | n <;> rcases m with _ | _ | _ | _ | _ | m <;>
    simp [tierHours] <;> omega

lemma get_expiry_hours_eq_specExpiry (s : ℚ) : get_expiry_hours s = specExpiry s := by
  unfold get_expiry_hours specExpiry specTierTable
  by_cases h1 : s ≤ 10 <;> by_cases h2 : s ≤ 50 <;> by_cases h3 : s ≤ 200 <;>
    by_cases h4 : s ≤ 500 <;> by_cases h5 : s ≤ 1000 <;>
    simp [List.find?, h1, h2, h3, h4, h5] <;> linarith

/-! ### Request signature (`EnhancedDownloadManager._signature_for_params`)

The Python function takes the request-parameter dict, keeps only the nine keys
`product_type, variable, pressure_level, year, month, day, time, area,
data_format` (a missing key contributes `None`), sorts every list value, then
serializes the normalized dict deterministically (`json.dumps` with sorted
keys) and returns its SHA-256 hex digest.  Both the serialization and the
digest are deterministic functions of the normalized key/value association
below, so digest equality is equivalent to equality of this canonical payload;
we therefore state the claims at the payload level. -/

inductive PValue where
  | scalar (s : String)
  | arr (l : List String)
deriving DecidableEq

/-- A request-parameter mapping: dict lookup with `params.get(k)`. -/
def ParamMap : Type := String → Option PValue

/-- Python `sorted` on a list of strings. -/
def sortStrings (l : List String) : List String := l.mergeSort

def sigKeys : List String :=
  ["product_type", "variable", "pressure_level", "year", "month", "day", "time",
   "area", "data_format"]

/-- `norm[k] = sorted(v) if isinstance(v, list) else v`. -/
def normValue : Option PValue → Option PValue
  | some (.arr l) => some (.arr (sortStrings l))
  | v => v

/-- The canonical payload whose deterministic serialization is hashed. -/
def signatureForParams (params : ParamMap) : List (String × Option PValue) :=
  sigKeys.map fun k => (k, normValue (params k))

/-- Two parameter values are equal up to reordering of multi-valued fields. -/
def permEquiv : Option PValue → Option PValue → Prop
  | some (.arr l₁), some (.arr l₂) => l₁.Perm l₂
  | v₁, v₂ => v₁ = v₂

lemma sortStrings_congr {l₁ l₂ : List String} (h : l₁.Perm l₂) :
    sortStrings l₁ = sortStrings l₂ :=
  List.eq_of_perm_of_sorted (((List.mergeSort_perm l₁ _).trans h).trans
    (List.mergeSort_perm l₂ _).symm) (List.sorted_mergeSort' l₁) (List.sorted_mergeSort' l₂)

lemma normValue_congr {v₁ v₂ : Option PValue} (h : permEquiv v₁ v₂) :
    normValue v₁ = normValue v₂ := by
  rcases v₁ with _ | (s₁ | l₁) <;> rcases v₂ with _ | (s₂ | l₂) <;>
    simp [permEquiv] at h <;> simp [normValue]
  · exact h
  · exact sortStrings_congr h

/-- Concrete parameter maps used as witnesses: same data with the year list
reordered, and an extra parameter outside the fixed key list. -/
def paramsA : ParamMap := fun k =>
  match k with
  | "year" => some (.arr ["2001", "2000"])
  | "variable" => some (.arr ["temperature"])
  | "area" => some (.scalar "global")
  | "not_a_signature_key" => some (.scalar "ignored")
  | _ => none

def paramsB : ParamMap := fun k =>
  match k with
  | "year" => some (.arr ["2000", "2001"])
  | "variable" => some (.arr ["temperature"])
  | "area" => some (.scalar "global")
  | _ => none

/-! ### Link registry (`temp_links`, `is_link_valid`, `increment_download_count`)

A registry entry is the dict built by `generate_temp_link`; ISO-8601 datetimes
are modelled as rational timestamps.  The registry dict is an association
list; `fileExists` models `os.path.exists`.  `MgrState.saveCount` counts calls
to `safe_save_temp_links` (the persistence write). -/

/-! ### Sliding-window rate limiter (`EnhancedRateLimiter.allow`)

Per identifier the limiter keeps a deque of request timestamps (`time.time()`
floats, modelled as `ℚ`).  `allow` pops from the left while the head is older
than `now - window_seconds`, admits and appends `now` if fewer than
`max_requests` remain, else rejects with
`retry_after = max(0, int(window_seconds - (now - dq[0])))` (Python `int()`
truncates; the operand is ≥ 0 after pruning, so it is the floor).  The result
is (allowed, retry_after, updated deque). -/

def rl_allow (maxRequests : ℕ) (windowSeconds : ℚ) (dq : List ℚ) (now : ℚ) :
    Bool × ℤ × List ℚ :=
  let cutoff := now - windowSeconds
  let pruned := dq.dropWhile fun t => decide (t < cutoff)
  if pruned.length < maxRequests then (true, 0, pruned ++ [now])
  else (false, max 0 ⌊windowSeconds - (now - pruned.headD 0)⌋, pruned)

lemma dropWhile_lt_eq_filter (c : ℚ) (l : List ℚ) (h : l.Sorted (· ≤ ·)) :
    l.dropWhile (fun t => decide (t < c)) = l.filter (fun t => decide (c ≤ t)) := by
  induction l with
  | nil => rfl
  | cons a l ih =>
    rw [List.sorted_cons] at h
    by_cases hac : a < c
    · simp only [List.dropWhile_cons, List.filter_cons, decide_eq_true_eq, hac, if_pos,
        decide_eq_true (show a < c from hac)]
      rw [ih h.2]
      simp [not_le.mpr hac]
    · have hca : c ≤ a := not_lt.mp hac
      have hfl : l.filter (fun t => decide (c ≤ t)) = l :=
        List.filter_eq_self.mpr fun b hb => by
          simpa using le_trans hca (h.1 b hb)
      simp [List.dropWhile_cons, List.filter_cons, hac, hca, hfl]

structure TempLink where
  filename : String
  filePath : String
  fileSizeMb : ℚ
  createdAt : ℚ
  expiresAt : ℚ
  downloadCount : ℕ
  maxDownloads : ℕ
deriving DecidableEq

def lookupLink (reg : List (String × TempLink)) (id : String) : Option TempLink :=
  (reg.find? fun e => e.1 == id).map Prod.snd

/-- `EnhancedDownloadManager.is_link_valid`: absent id → false; `now >
expires_at` → false; `download_count >= max_downloads` → false; backing file
absent → false; otherwise true. -/
def is_link_valid (reg : List (String × TempLink)) (fileExists : String → Bool)
    (now : ℚ) (id : String) : Bool :=
  match lookupLink reg id with
  | none => false
  | some info =>
    if now > info.expiresAt then false
    else if info.downloadCount ≥ info.maxDownloads then false
    else if fileExists info.filePath then true
    else false

lemma floor_nineteen_halves : ⌊(60 : ℚ) - (121 / 2 - 10)⌋ = (9 : ℤ) := by
  rw [show (60 : ℚ) - (121 / 2 - 10) = 19 / 2 by norm_num]
  rw [Int.floor_eq_iff]
  constructor <;> norm_num

lemma rl_allow_eval : rl_allow 2 60 [10, 20] (121 / 2) = (false, 9, [10, 20]) := by
  have hd : ([10, 20] : List ℚ).dropWhile (fun t => decide (t < 121 / 2 - 60)) = [10, 20] := by
    simp only [List.dropWhile_cons, decide_eq_true_eq]
    rw [if_neg (by norm_num)]
  simp only [rl_allow, hd]
  norm_num [floor_nineteen_halves]

structure MgrState where
  temp_links : List (String × TempLink)
  saveCount : ℕ
deriving DecidableEq

def updateLink (reg : List (String × TempLink)) (id : String)
    (f : TempLink → TempLink) : List (String × TempLink) :=
  reg.map fun e => if e.1 == id then (e.1, f e.2) else e

/-- `EnhancedDownloadManager.increment_download_count`: if the id is present,
bump its `download_count` and persist (`safe_save_temp_links`); otherwise do
nothing. -/
def increment_download_count (st : MgrState) (id : String) : MgrState :=
  match lookupLink st.temp_links id with
  | some _ =>
    { temp_links := updateLink st.temp_links id
        (fun l => { l with downloadCount := l.downloadCount + 1 }),
      saveCount := st.saveCount + 1 }
  | none => st

/-! ### Persistence (`safe_save_temp_links`, `save_download_index`,
`load_temp_links`)

Saves are modelled as sequences of filesystem micro-operations over an
explicit disk state, so that a crash can be simulated by executing only a
prefix.  A file write (`open(..., "w")` + `json.dump`) is two micro-steps:
opening truncates the file (`beginWrite`), and only the completed dump yields
the full content (`endWrite`); `shutil.move` within one filesystem and
`os.remove` are single atomic steps. -/

inductive FileData where
  | truncated
  | full (content : String)
deriving DecidableEq

def FsState : Type := List (String × FileData)

def fsLookup : FsState → String → Option FileData
  | [], _ => none
  | e :: fs, p => if e.1 = p then some e.2 else fsLookup fs p

def fsRemoveKey : FsState → String → FsState
  | [], _ => []
  | e :: fs, p => if e.1 = p then fsRemoveKey fs p else e :: fsRemoveKey fs p

def fsSet (fs : FsState) (p : String) (v : FileData) : FsState :=
  (p, v) :: fsRemoveKey fs p

inductive FsOp where
  | beginWrite (p : String)
  | endWrite (p : String) (c : String)
  | move (src dst : String)
  | removeFile (p : String)

def applyFsOp (fs : FsState) : FsOp → FsState
  | .beginWrite p => fsSet fs p .truncated
  | .endWrite p c => fsSet fs p (.full c)
  | .move src dst =>
    match fsLookup fs src with
    | some v => fsRemoveKey (fsSet fs dst v) src
    | none => fs
  | .removeFile p => fsRemoveKey fs p

def runFs (fs : FsState) (ops : List FsOp) : FsState := ops.foldl applyFsOp fs

/-- `app.TEMP_LINKS_FILE` (config.py) and the derived staging/backup names. -/
def tempLinksFile : String := "temp_links.json"
def tempLinksTmp : String := "temp_links.json.tmp"
def tempLinksBak : String := "temp_links.json.bak"

/-- `app.DOWNLOAD_INDEX_FILE` (config.py). -/
def downloadIndexFile : String := "download_index.json"

/-- `EnhancedDownloadManager.safe_save_temp_links`: write the staging file,
move the live file to the backup name if it exists, move the staging file
into the live name, then delete the backup if present.  The existence tests
are taken on the initial disk state; the first two steps touch only the
staging path, so this matches the run-time checks. -/
def safe_save_temp_links_steps (fs : FsState) (content : String) : List FsOp :=
  [.beginWrite tempLinksTmp, .endWrite tempLinksTmp content] ++
  (if (fsLookup fs tempLinksFile).isSome then [.move tempLinksFile tempLinksBak] else []) ++
  [.move tempLinksTmp tempLinksFile] ++
  (if (fsLookup fs tempLinksFile).isSome ∨ (fsLookup fs tempLinksBak).isSome then
    [.removeFile tempLinksBak] else [])

/-- `EnhancedDownloadManager.save_download_index`: opens the live index file
for writing and dumps into it directly — no staging file, no backup. -/
def save_download_index_steps (content : String) : List FsOp :=
  [.beginWrite downloadIndexFile, .endWrite downloadIndexFile content]

lemma fsLookup_fsRemoveKey_ne {p q : String} (fs : FsState) (h : p ≠ q) :
    fsLookup (fsRemoveKey fs q) p = fsLookup fs p := by
  induction fs with
  | nil => rfl
  | cons e fs ih =>
    simp only [fsRemoveKey]
    split_ifs with he
    · rw [ih]
      simp only [fsLookup]
      rw [if_neg (by intro hp; exact h (hp.symm.trans he))]
    · simp only [fsLookup]
      split_ifs with hp
      · rfl
      · exact ih

lemma fsLookup_fsRemoveKey_self (fs : FsState) (p : String) :
    fsLookup (fsRemoveKey fs p) p = none := by
  induction fs with
  | nil => rfl
  | cons e fs ih =>
    simp only [fsRemoveKey]
    split_ifs with he
    · exact ih
    · simp only [fsLookup]
      rw [if_neg he]
      exact ih

lemma fsLookup_fsSet_self (fs : FsState) (p : String) (v : FileData) :
    fsLookup (fsSet fs p v) p = some v := by
  simp [fsSet, fsLookup]

lemma fsLookup_fsSet_ne {p q : String} (fs : FsState) (v : FileData) (h : p ≠ q) :
    fsLookup (fsSet fs q v) p = fsLookup fs p := by
  simp only [fsSet, fsLookup]
  rw [if_neg fun hq => h hq.symm]
  exact fsLookup_fsRemoveKey_ne fs h

/-! ### Loading the link registry (`load_temp_links`)

What the loader can observe of the live file: it is absent, it parses to a
dict, it parses to valid JSON that is not a dict, or `json.load` raises.  On
a raise the loader copies the unreadable file to a timestamped
`temp_links.json.backup.<ts>` name (`shutil.copy`, the original stays put)
and falls through to return `{}`.  The `.bak` file written by the save
protocol is never read.  The `retry_on_failure` decorator never re-runs the
body since all exceptions are swallowed inside it. -/

inductive RegFileContent where
  | parses (m : List (String × TempLink))
  | parsesNonDict
  | malformed

structure LoaderDisk where
  live : Option RegFileContent
  bak : Option RegFileContent

structure LoadResult where
  links : List (String × TempLink)
  asideCopyMade : Bool
deriving DecidableEq

def load_temp_links : LoaderDisk → LoadResult
  | ⟨none, _⟩ => ⟨[], false⟩
  | ⟨some (.parses m), _⟩ => ⟨m, false⟩
  | ⟨some .parsesNonDict, _⟩ => ⟨[], false⟩
  | ⟨some .malformed, _⟩ => ⟨[], true⟩

/-! ### Redemption under concurrency (`download_file` route +
`increment_download_count`)

The route body performs two separate steps on the shared registry with no
lock held across them: first `is_link_valid(link_id)` (the validity check,
whose count test is `download_count < max_downloads`), then
`increment_download_count(link_id)`.  We model one link's redemption by two
request-handler threads as a two-step program per actor (check, then
increment-if-checked-valid) whose steps interleave according to a schedule.
The expiry and file-existence conjuncts of the check are carried as the
booleans `expOk`/`fileOk`, constant over the interleaving. -/

structure RedeemActor where
  pc : ℕ
  passed : Bool
  succeeded : Bool
deriving DecidableEq

def redeemCheck (expOk fileOk : Bool) (maxDownloads count : ℕ) : Bool :=
  expOk && decide (count < maxDownloads) && fileOk

def redeemStep (expOk fileOk : Bool) (maxDownloads count : ℕ) (a : RedeemActor) :
    ℕ × RedeemActor :=
  if a.pc = 0 then
    (count, ⟨1, redeemCheck expOk fileOk maxDownloads count, false⟩)
  else if a.pc = 1 then
    if a.passed then (count + 1, ⟨2, a.passed, true⟩)
    else (count, ⟨2, a.passed, false⟩)
  else (count, a)

def initActor : RedeemActor := ⟨0, false, false⟩

/-- Run a schedule over the shared `download_count` and two request handlers;
`true` schedules a step of the second handler. -/
def redeemRun (expOk fileOk : Bool) (maxDownloads : ℕ) :
    ℕ × RedeemActor × RedeemActor → List Bool → ℕ × RedeemActor × RedeemActor
  | st, [] => st
  | (count, a, b), s :: rest =>
    if s then
      let p := redeemStep expOk fileOk maxDownloads count b
      redeemRun expOk fileOk maxDownloads (p.1, a, p.2) rest
    else
      let p := redeemStep expOk fileOk maxDownloads count a
      redeemRun expOk fileOk maxDownloads (p.1, p.2, b) rest

def successCount (st : ℕ × RedeemActor × RedeemActor) : ℕ :=
  (if st.2.1.succeeded then 1 else 0) + (if st.2.2.succeeded then 1 else 0)

/-- One serialized redemption: the check and the increment execute back to
back with no interleaving. -/
def redeemOnce (expOk fileOk : Bool) (maxDownloads count : ℕ) : ℕ × Bool :=
  if redeemCheck expOk fileOk maxDownloads count then (count + 1, true)
  else (count, false)

/-- `k` serialized redemption attempts starting from count 0, returning the
final count and the number of successes. -/
def redeemSeq (expOk fileOk : Bool) (maxDownloads : ℕ) : ℕ → ℕ × ℕ
  | 0 => (0, 0)
  | k + 1 =>
    let p := redeemSeq expOk fileOk maxDownloads k
    let q := redeemOnce expOk fileOk maxDownloads p.1
    (q.1, if q.2 then p.2 + 1 else p.2)

/-! ### Reclamation pass (`cleanup_expired_files`)

Per link the pass parses `expires_at` and tests expiry/exhaustion; an
exception inside that per-link block (e.g. a malformed `expires_at`, modelled
by the `raisesOnProcess` flag) is caught by the inner handler, which appends
the link to the removal list and moves on — it does not touch
`self._error_count`.  After the loop the collected ids are popped and the
state persisted; an exception escaping to the outer handler (modelled by
`passRaises`, e.g. the save failing) increments `_error_count` and, when the
new count exceeds `_max_errors` (10), sets the shutdown flag. -/

structure CleanLink where
  expiresAt : ℚ
  downloadCount : ℕ
  maxDownloads : ℕ
  raisesOnProcess : Bool
deriving DecidableEq

def shouldRemove (now : ℚ) (l : CleanLink) : Bool :=
  l.raisesOnProcess || decide (now > l.expiresAt) ||
    decide (l.downloadCount ≥ l.maxDownloads)

structure ReaperState where
  errorCount : ℕ
  shutdownSet : Bool
deriving DecidableEq

def cleanup_expired_files (now : ℚ) (links : List (String × CleanLink))
    (passRaises : Bool) (st : ReaperState) (maxErrors : ℕ) :
    List (String × CleanLink) × ReaperState :=
  let remaining := links.filter fun e => !(shouldRemove now e.2)
  if passRaises then
    (remaining,
     { errorCount := st.errorCount + 1,
       shutdownSet := st.shutdownSet || decide (st.errorCount + 1 > maxErrors) })
  else (remaining, st)

/-! ### Progress manager (`ProgressManager`, `get_progress` route)

Three dicts keyed by op id; `get` reports `op_to_progress.get(op, 0)` and
`op_to_status.get(op, "unknown")`.  `set_status` stores the given status
string and raises the progress to at least the status's base percentage;
`set_fraction` raises it to at least `int(max(0, min(100, round(frac*100))))`
(Lean's `round` rounds halves up where Python rounds halves to even — the
difference is immaterial to the properties proved, which hold for any rounded
value); `complete` forces status "successful" and progress 100; `init`
resets the entry to progress 0, status "submitted". -/

structure PMState where
  progressOf : String → Option ℕ
  statusOf : String → Option String

def statusBase (st : String) : ℕ :=
  if st = "submitted" then 1
  else if st = "accepted" then 10
  else if st = "running" then 35
  else if st = "successful" then 90
  else if st = "failed" then 100
  else 1

inductive PMOp where
  | init (op : String)
  | setStatus (op status : String)
  | setFraction (op : String) (frac : ℚ)
  | complete (op : String)

def fractionPct (frac : ℚ) : ℕ := Int.toNat (max 0 (min 100 (round (frac * 100))))

def pmApply (s : PMState) : PMOp → PMState
  | .init op =>
    { progressOf := fun k => if k = op then some 0 else s.progressOf k,
      statusOf := fun k => if k = op then some "submitted" else s.statusOf k }
  | .setStatus op st =>
    { progressOf := fun k =>
        if k = op then some (max ((s.progressOf op).getD 0) (statusBase st))
        else s.progressOf k,
      statusOf := fun k => if k = op then some st else s.statusOf k }
  | .setFraction op frac =>
    { progressOf := fun k =>
        if k = op then some (max ((s.progressOf op).getD 0) (fractionPct frac))
        else s.progressOf k,
      statusOf := s.statusOf }
  | .complete op =>
    { progressOf := fun k => if k = op then some 100 else s.progressOf k,
      statusOf := fun k => if k = op then some "successful" else s.statusOf k }

def pmRun (s : PMState) (ops : List PMOp) : PMState := ops.foldl pmApply s

def pmGetProgress (s : PMState) (op : String) : ℕ := (s.progressOf op).getD 0

def pmGetStatus (s : PMState) (op : String) : String := (s.statusOf op).getD "unknown"

def pmEmpty : PMState := ⟨fun _ => none, fun _ => none⟩

def statusEnum : List String :=
  ["submitted", "accepted", "running", "successful", "failed", "unknown"]

/-- Every reported status is in the enumeration or the unknown default. -/
def statusOk (s : PMState) : Prop := ∀ id, pmGetStatus s id ∈ statusEnum

/-- Reported progress never exceeds 100 (holds for every state the manager
can actually reach; needed so that `complete`, which writes exactly 100,
never lowers the value). -/
def progressBounded (s : PMState) : Prop := ∀ id, pmGetProgress s id ≤ 100

def isInit : PMOp → Bool
  | .init _ => true
  | _ => false

def statusArgOk : PMOp → Bool
  | .setStatus _ st => decide (st ∈ statusEnum)
  | _ => true

def opA : String := "op1"

/-- Concrete registry data for witnesses and counterexamples. -/
lemma statusBase_le_100 (st : String) : statusBase st ≤ 100 := by
  unfold statusBase
  split_ifs <;> norm_num

lemma fractionPct_le_100 (frac : ℚ) : fractionPct frac ≤ 100 := by
  unfold fractionPct
  omega

lemma pmApply_mono (s : PMState) (o : PMOp) (id : String) (hno : isInit o = false)
    (hb : progressBounded s) :
    pmGetProgress s id ≤ pmGetProgress (pmApply s o) id := by
  cases o with
  | init op => simp [isInit] at hno
  | setStatus op st =>
    by_cases hid : id = op
    · subst hid
      simp [pmApply, pmGetProgress]
    · simp [pmApply, pmGetProgress, hid]
  | setFraction op frac =>
    by_cases hid : id = op
    · subst hid
      simp [pmApply, pmGetProgress]
    · simp [pmApply, pmGetProgress, hid]
  | complete op =>
    by_cases hid : id = op
    · subst hid
      simp [pmApply, pmGetProgress]
      exact hb id
    · simp [pmApply, pmGetProgress, hid]

lemma pmApply_bounded (s : PMState) (o : PMOp) (hb : progressBounded s) :
    progressBounded (pmApply s o) := by
  intro id
  cases o with
  | init op =>
    by_cases hid : id = op
    · subst hid
      simp [pmApply, pmGetProgress]
    · simp [pmApply, pmGetProgress, hid]
      exact hb id
  | setStatus op st =>
    by_cases hid : id = op
    · subst hid
      simp [pmApply, pmGetProgress]
      exact ⟨hb id, statusBase_le_100 st⟩
    · simp [pmApply, pmGetProgress, hid]
      exact hb id
  | setFraction op frac =>
    by_cases hid : id = op
    · subst hid
      simp [pmApply, pmGetProgress]
      exact ⟨hb id, fractionPct_le_100 frac⟩
    · simp [pmApply, pmGetProgress, hid]
      exact hb id
  | complete op =>
    by_cases hid : id = op
    · subst hid
      simp [pmApply, pmGetProgress]
    · simp [pmApply, pmGetProgress, hid]
      exact hb id

lemma pmApply_statusOk (s : PMState) (o : PMOp) (hst : statusArgOk o = true)
    (hs : statusOk s) : statusOk (pmApply s o) := by
  intro id
  cases o with
  | init op =>
    by_cases hid : id = op
    · subst hid
      simp [pmApply, pmGetStatus, statusEnum]
    · simp [pmApply, pmGetStatus, hid]
      exact hs id
  | setStatus op st =>
    simp only [statusArgOk, decide_eq_true_eq] at hst
    by_cases hid : id = op
    · subst hid
      simpa [pmApply, pmGetStatus] using hst
    · simp [pmApply, pmGetStatus, hid]
      exact hs id
  | setFraction op frac =>
    simp only [pmApply]
    exact hs id
  | complete op =>
    by_cases hid : id = op
    · subst hid
      simp [pmApply, pmGetStatus, statusEnum]
    · simp [pmApply, pmGetStatus, hid]
      exact hs id

def cexLink : TempLink :=
  { filename := "f.nc", filePath := "downloads/f.nc", fileSizeMb := 1,
    createdAt := 0, expiresAt := 5, downloadCount := 0, maxDownloads := 5 }

def cexId : String := "id1"

def missingId : String := "absent"

def cexReg : List (String × TempLink) := [(cexId, cexLink)]

def allFilesExist : String → Bool := fun _ => true

end Era5

/-- C1 counterexample: at `now = expires_at` (with the redemption count below
the limit and the backing file present) `is_link_valid` returns `true`,
whereas the claim's condition `now < expires_at` demands `false`: the code
uses a strict `now > expires_at` test, so the link does not become invalid at
`now = expires_at`. -/
theorem C1_counterexample :
    Era5.is_link_valid Era5.cexReg Era5.allFilesExist 5 Era5.cexId = true ∧
    ¬ ((5 : ℚ) < Era5.cexLink.expiresAt) := by
  constructor
  · decide
  · norm_num [Era5.cexLink]

/-- C1 (amended): for every id present in the registry, `is_link_valid`
returns true iff `now ≤ expires_at` AND `download_count < max_downloads` AND
the backing file exists; the link becomes invalid exactly when
`now > expires_at` (strictly past expiry), not already at `now = expires_at`. -/
theorem C1_link_validity (reg : List (String × Era5.TempLink))
    (fe : String → Bool) (now : ℚ) (id : String) (info : Era5.TempLink)
    (hlk : Era5.lookupLink reg id = some info) :
    (Era5.is_link_valid reg fe now id = true ↔
      now ≤ info.expiresAt ∧ info.downloadCount < info.maxDownloads ∧
        fe info.filePath = true) := by
  simp only [Era5.is_link_valid, hlk]
  split_ifs with h1 h2 h3 <;> simp
  · intro hle
    exact absurd h1 (not_lt.mpr hle)
  · intro _ hcnt
    omega
  · exact ⟨not_lt.mp h1, by omega, h3⟩
  · intro hle hcnt
    simpa using h3

/-- C1 witness: the amended validity characterization applied to the concrete
registry at `now = 3`, before the expiry at 5. -/
theorem C1_link_validity_witness :
    Era5.is_link_valid Era5.cexReg Era5.allFilesExist 3 Era5.cexId = true :=
  (C1_link_validity Era5.cexReg Era5.allFilesExist 3 Era5.cexId Era5.cexLink
    (by decide)).mpr ⟨by norm_num [Era5.cexLink], by decide, rfl⟩

/-- C10: for an id absent from the registry, `increment_download_count` is a
no-op: the whole manager state — the registry map and the count of persistence
writes — is unchanged (and, being a total function, no error is raised). -/
theorem C10_increment_absent_id_noop (st : Era5.MgrState) (id : String)
    (h : Era5.lookupLink st.temp_links id = none) :
    Era5.increment_download_count st id = st := by
  simp only [Era5.increment_download_count, h]

/-- C10 witness: incrementing an absent id on the concrete one-link registry
leaves the state untouched. -/
theorem C10_increment_absent_id_noop_witness :
    Era5.increment_download_count ⟨Era5.cexReg, 7⟩ Era5.missingId = ⟨Era5.cexReg, 7⟩ :=
  C10_increment_absent_id_noop ⟨Era5.cexReg, 7⟩ Era5.missingId (by decide)

/-- C2 counterexample: the artifact-cache index is persisted by
`save_download_index`, which writes the live file in place; crashing right
after the file is opened for writing (after the first micro-step) leaves the
live index file truncated — neither the pre-write nor the post-write state. -/
theorem C2_counterexample :
    Era5.fsLookup (Era5.runFs [(Era5.downloadIndexFile, Era5.FileData.full "old")]
      ((Era5.save_download_index_steps "new").take 1)) Era5.downloadIndexFile =
      some Era5.FileData.truncated := rfl

/-- C2 (amended): saves of the link registry do follow the atomic-replace
protocol, so a crash at any point of `safe_save_temp_links` leaves the live
registry file holding the complete pre-write content, the complete post-write
content, or (between the two renames) absent — never truncated; the cache
index, by contrast, is written in place and can be left truncated by a crash. -/
theorem C2_registry_save_atomic (fs : Era5.FsState) (content old : String) (n : ℕ)
    (hlive : Era5.fsLookup fs Era5.tempLinksFile = some (.full old)) :
    Era5.fsLookup (Era5.runFs fs ((Era5.safe_save_temp_links_steps fs content).take n))
        Era5.tempLinksFile = some (.full old) ∨
    Era5.fsLookup (Era5.runFs fs ((Era5.safe_save_temp_links_steps fs content).take n))
        Era5.tempLinksFile = some (.full content) ∨
    Era5.fsLookup (Era5.runFs fs ((Era5.safe_save_temp_links_steps fs content).take n))
        Era5.tempLinksFile = none := by
  have hTL : Era5.tempLinksFile ≠ Era5.tempLinksTmp := by decide
  have hBL : Era5.tempLinksFile ≠ Era5.tempLinksBak := by decide
  have hTB : Era5.tempLinksTmp ≠ Era5.tempLinksBak := by decide
  have hsteps : Era5.safe_save_temp_links_steps fs content =
      [.beginWrite Era5.tempLinksTmp, .endWrite Era5.tempLinksTmp content,
       .move Era5.tempLinksFile Era5.tempLinksBak,
       .move Era5.tempLinksTmp Era5.tempLinksFile,
       .removeFile Era5.tempLinksBak] := by
    simp [Era5.safe_save_temp_links_steps, hlive]
  rw [hsteps]
  have h2 : Era5.fsLookup (Era5.fsSet (Era5.fsSet fs Era5.tempLinksTmp .truncated)
      Era5.tempLinksTmp (.full content)) Era5.tempLinksFile = some (.full old) := by
    rw [Era5.fsLookup_fsSet_ne _ _ hTL, Era5.fsLookup_fsSet_ne _ _ hTL, hlive]
  have h3 : Era5.fsLookup (Era5.fsRemoveKey (Era5.fsSet (Era5.fsSet (Era5.fsSet fs
      Era5.tempLinksTmp .truncated) Era5.tempLinksTmp (.full content)) Era5.tempLinksBak
      (.full old)) Era5.tempLinksFile) Era5.tempLinksTmp = some (.full content) := by
    rw [Era5.fsLookup_fsRemoveKey_ne _ hTL.symm, Era5.fsLookup_fsSet_ne _ _ hTB,
      Era5.fsLookup_fsSet_self]
  match n with
  | 0 => exact Or.inl hlive
  | 1 =>
    simp only [List.take, Era5.runFs, List.foldl, Era5.applyFsOp]
    exact Or.inl (by rw [Era5.fsLookup_fsSet_ne _ _ hTL, hlive])
  | 2 =>
    simp only [List.take, Era5.runFs, List.foldl, Era5.applyFsOp]
    exact Or.inl h2
  | 3 =>
    simp only [List.take, Era5.runFs, List.foldl, Era5.applyFsOp]
    rw [h2]
    exact Or.inr (Or.inr (by rw [Era5.fsLookup_fsRemoveKey_self]))
  | 4 =>
    simp only [List.take, Era5.runFs, List.foldl, Era5.applyFsOp]
    rw [h2, h3]
    exact Or.inr (Or.inl
      (by rw [Era5.fsLookup_fsRemoveKey_ne _ hTL, Era5.fsLookup_fsSet_self]))
  | (m + 5) =>
    rw [List.take_of_length_le (by simp)]
    simp only [Era5.runFs, List.foldl, Era5.applyFsOp]
    rw [h2, h3]
    refine Or.inr (Or.inl ?_)
    rw [Era5.fsLookup_fsRemoveKey_ne _ hBL, Era5.fsLookup_fsRemoveKey_ne _ hTL,
      Era5.fsLookup_fsSet_self]

/-- C2 witness: the crash-safety disjunction applied on a concrete disk (live
registry file with content old, new content new) at the crash point right
after the live file was moved to the backup name: the live path is absent. -/
theorem C2_registry_save_atomic_witness :
    Era5.fsLookup (Era5.runFs [(Era5.tempLinksFile, Era5.FileData.full "oldreg")]
        ((Era5.safe_save_temp_links_steps [(Era5.tempLinksFile, Era5.FileData.full "oldreg")]
          "newreg").take 3)) Era5.tempLinksFile = some (.full "oldreg") ∨
    Era5.fsLookup (Era5.runFs [(Era5.tempLinksFile, Era5.FileData.full "oldreg")]
        ((Era5.safe_save_temp_links_steps [(Era5.tempLinksFile, Era5.FileData.full "oldreg")]
          "newreg").take 3)) Era5.tempLinksFile = some (.full "newreg") ∨
    Era5.fsLookup (Era5.runFs [(Era5.tempLinksFile, Era5.FileData.full "oldreg")]
        ((Era5.safe_save_temp_links_steps [(Era5.tempLinksFile, Era5.FileData.full "oldreg")]
          "newreg").take 3)) Era5.tempLinksFile = none :=
  C2_registry_save_atomic [(Era5.tempLinksFile, Era5.FileData.full "oldreg")] "newreg"
    "oldreg" 3 rfl

/-- C3 counterexample: with an unreadable live file and a backup holding a
good one-link registry, the loader returns the empty registry instead of
recovering the backup's contents: `load_temp_links` never reads the backup
location. -/
theorem C3_counterexample :
    (Era5.load_temp_links ⟨some .malformed, some (.parses Era5.cexReg)⟩).links = [] ∧
    Era5.cexReg ≠ [] := by
  exact ⟨rfl, by simp [Era5.cexReg]⟩

/-- C3 (amended): on load, if the live file is absent, parses to a non-dict,
or fails to parse, the loader starts from an empty registry without ever
consulting the backup location (the result is independent of the backup's
contents); when the live file raises on parse it copies the unreadable file
aside to a timestamped backup name before returning empty, but in the
valid-JSON-non-dict case it returns empty with no copy made. -/
theorem C3_loader_recovery (d : Era5.LoaderDisk) :
    (∀ m, d.live = some (.parses m) → Era5.load_temp_links d = ⟨m, false⟩) ∧
    (d.live = none → Era5.load_temp_links d = ⟨[], false⟩) ∧
    (d.live = some .parsesNonDict → Era5.load_temp_links d = ⟨[], false⟩) ∧
    (d.live = some .malformed → Era5.load_temp_links d = ⟨[], true⟩) ∧
    Era5.load_temp_links d = Era5.load_temp_links ⟨d.live, none⟩ := by
  obtain ⟨live, bak⟩ := d
  refine ⟨?_, ?_, ?_, ?_, ?_⟩ <;>
    rcases live with _ | c <;> try rcases c with m | _ | _ <;> simp_all [Era5.load_temp_links]
  all_goals simp_all [Era5.load_temp_links]

/-- C3 witness: the loader applied to the counterexample disk — unreadable
live file, healthy backup — yields the empty registry with an aside copy. -/
theorem C3_loader_recovery_witness :
    Era5.load_temp_links ⟨some .malformed, some (.parses Era5.cexReg)⟩ =
      ⟨[], true⟩ :=
  (C3_loader_recovery ⟨some .malformed, some (.parses Era5.cexReg)⟩).2.2.2.1 rfl

/-- C6 counterexample: with a limit of 2 per 60 seconds, timestamps [10, 20]
and `now = 60.5`, the third request is rejected with `retry_after = 9`
(the code truncates with `int()`), whereas the claim's formula
`window - (now - oldest)` gives 9.5 — the two are not equal. -/
theorem C6_counterexample :
    Era5.rl_allow 2 60 [10, 20] (121 / 2) = (false, 9, [10, 20]) ∧
    (60 : ℚ) - (121 / 2 - 10) = 19 / 2 ∧ (9 : ℚ) ≠ 19 / 2 :=
  ⟨Era5.rl_allow_eval, by norm_num, by norm_num⟩

/-- C6 (amended): `allow` first drops the recorded timestamps older than
`now - window`; if the remaining count is strictly below `max_requests` it
allows and records `now`; otherwise it rejects without recording, returning
`retry_after = max(0, ⌊window - (now - oldest_remaining_timestamp)⌋)` — the
whole-second truncation of the time until the oldest counted timestamp exits
the window, not that exact real-valued quantity. -/
theorem C6_rate_limiter (maxRequests : ℕ) (window : ℚ) (dq : List ℚ) (now : ℚ)
    (hsorted : dq.Sorted (· ≤ ·)) :
    ((dq.filter fun t => decide (now - window ≤ t)).length < maxRequests →
      Era5.rl_allow maxRequests window dq now =
        (true, 0, (dq.filter fun t => decide (now - window ≤ t)) ++ [now])) ∧
    (maxRequests ≤ (dq.filter fun t => decide (now - window ≤ t)).length →
      Era5.rl_allow maxRequests window dq now =
        (false,
         max 0 ⌊window - (now - (dq.filter fun t => decide (now - window ≤ t)).headD 0)⌋,
         dq.filter fun t => decide (now - window ≤ t))) := by
  have hd := Era5.dropWhile_lt_eq_filter (now - window) dq hsorted
  constructor
  · intro h
    simp only [Era5.rl_allow, hd]
    rw [if_pos h]
  · intro h
    simp only [Era5.rl_allow, hd]
    rw [if_neg (not_lt.mpr h)]

/-- C6 witness: the amended characterization applied at limit 2 per 60s,
recorded timestamps [10, 20] and `now = 60.5`: rejection with a 9-second
retry hint and no recording. -/
theorem C6_rate_limiter_witness :
    Era5.rl_allow 2 60 [10, 20] (121 / 2) = (false, 9, [10, 20]) := by
  have hf : ([10, 20] : List ℚ).filter (fun t => decide (121 / 2 - 60 ≤ t)) = [10, 20] :=
    List.filter_eq_self.mpr (by intro b hb; fin_cases hb <;> norm_num)
  have hs : ([10, 20] : List ℚ).Sorted (· ≤ ·) := by
    norm_num [List.sorted_cons]
  have h := (C6_rate_limiter 2 60 [10, 20] (121 / 2) hs).2 (by rw [hf]; norm_num)
  rw [hf] at h
  rw [h]
  norm_num [Era5.floor_nineteen_halves]

/-- C4: parameter maps that differ only in the ordering of their list-valued
fields get identical signatures, and parameter maps that agree on the nine
fixed signature keys (differing only outside that list) get identical
signatures. -/
theorem C4_signature_order_independent :
    (∀ p₁ p₂ : Era5.ParamMap, (∀ k ∈ Era5.sigKeys, Era5.permEquiv (p₁ k) (p₂ k)) →
      Era5.signatureForParams p₁ = Era5.signatureForParams p₂) ∧
    (∀ p₁ p₂ : Era5.ParamMap, (∀ k ∈ Era5.sigKeys, p₁ k = p₂ k) →
      Era5.signatureForParams p₁ = Era5.signatureForParams p₂) := by
  constructor <;> intro p₁ p₂ h <;>
    refine List.map_congr_left fun k hk => ?_
  · rw [Era5.normValue_congr (h k hk)]
  · rw [h k hk]

/-- C4 witness: the two concrete maps above (year list reordered, one extra
non-signature parameter) receive the same signature. -/
theorem C4_signature_order_independent_witness :
    Era5.signatureForParams Era5.paramsA = Era5.signatureForParams Era5.paramsB :=
  C4_signature_order_independent.1 Era5.paramsA Era5.paramsB (by
    intro k hk
    fin_cases hk <;> simp [Era5.paramsA, Era5.paramsB, Era5.permEquiv] <;> decide)

/-- C5: the expiry-hours function realizes the monotonic size-tier table: for
every size the expiry is that of the smallest tier whose max-size bound is
≥ the size (≤10MB→2h, ≤50MB→4h, ≤200MB→8h, ≤500MB→12h, ≤1000MB→24h, else 48h);
for sizes s₁ < s₂ in different tiers the expiry is monotone; a 600MB artifact
gets 24 hours. -/
theorem C5_expiry_tier_table :
    (∀ s : ℚ, Era5.get_expiry_hours s = Era5.specExpiry s) ∧
    (∀ s₁ s₂ : ℚ, s₁ < s₂ → Era5.tierIdx s₁ ≠ Era5.tierIdx s₂ →
      Era5.get_expiry_hours s₁ ≤ Era5.get_expiry_hours s₂) ∧
    Era5.get_expiry_hours 600 = 24 := by
  refine ⟨Era5.get_expiry_hours_eq_specExpiry, ?_, by norm_num [Era5.get_expiry_hours]⟩
  intro s₁ s₂ hlt _
  rw [Era5.get_expiry_hours_eq_tierHours, Era5.get_expiry_hours_eq_tierHours]
  exact Era5.tierHours_mono (Era5.tierIdx_mono hlt.le)

/-- C5 witness: the monotonicity component applied at the concrete sizes 5MB
and 600MB (tiers 0 and 4). -/
theorem C5_expiry_tier_table_witness :
    Era5.get_expiry_hours 5 ≤ Era5.get_expiry_hours 600 :=
  C5_expiry_tier_table.2.1 5 600 (by norm_num) (by norm_num [Era5.tierIdx])

/-- C7 counterexample: a link with `max_redemptions = 1` (expiry and file
checks passing) redeemed by two interleaved request handlers — both run the
validity check before either increments — yields 2 successful redemptions and
a download count of 2, exceeding N = 1: the check and the increment are not
executed transactionally. -/
theorem C7_counterexample :
    Era5.redeemRun true true 1 (0, Era5.initActor, Era5.initActor)
        [false, true, false, true] = (2, ⟨2, true, true⟩, ⟨2, true, true⟩) ∧
    Era5.successCount (2, (⟨2, true, true⟩ : Era5.RedeemActor),
        (⟨2, true, true⟩ : Era5.RedeemActor)) = 2 ∧ ¬(2 ≤ 1) :=
  ⟨rfl, rfl, by norm_num⟩

/-- C7 (amended): when each redemption executes its validity check and its
increment back to back with no interleaving, a link with
`max_redemptions = N` admits exactly `min(attempts, N)` successful
redemptions (so exactly N once attempts ≥ N) and the count never exceeds N;
the code does not make the check-increment pair atomic, so interleaved
concurrent redemptions can exceed N. -/
theorem C7_redemption_serialized :
    (∀ maxD k : ℕ, Era5.redeemSeq true true maxD k = (min k maxD, min k maxD)) ∧
    (∀ maxD : ℕ,
      Era5.successCount (Era5.redeemRun true true maxD
        (0, Era5.initActor, Era5.initActor) [false, false, true, true]) = min 2 maxD) := by
  constructor
  · intro maxD k
    induction k with
    | zero => simp [Era5.redeemSeq]
    | succ k ih =>
      simp only [Era5.redeemSeq, ih]
      by_cases h : k < maxD
      · have hm : min k maxD = k := min_eq_left h.le
        simp only [Era5.redeemOnce, Era5.redeemCheck, hm, Bool.true_and, Bool.and_true,
          decide_eq_true h, if_pos]
        rw [Prod.mk.injEq]
        constructor <;> omega
      · have hm : min k maxD = maxD := min_eq_right (by omega)
        simp only [Era5.redeemOnce, Era5.redeemCheck, hm, Bool.true_and, Bool.and_true]
        rw [decide_eq_false (by omega : ¬ maxD < maxD)]
        simp only [Bool.false_eq_true, if_neg, ite_false]
        rw [Prod.mk.injEq]
        constructor <;> omega
  · intro maxD
    match maxD with
    | 0 => rfl
    | 1 => rfl
    | (m + 2) =>
      have h0 : (0 : ℕ) < m + 2 := by omega
      have h1 : (1 : ℕ) < m + 2 := by omega
      simp [Era5.redeemRun, Era5.redeemStep, Era5.redeemCheck, Era5.initActor,
        Era5.successCount, h0, h1]

/-- C8 counterexample: a reclamation pass over a single link whose processing
raises (`raisesOnProcess`) removes that link from the registry but leaves the
consecutive-error counter at 0 instead of incrementing it: per-link
exceptions are absorbed by the inner handler without touching
`_error_count`. -/
theorem C8_counterexample :
    Era5.cleanup_expired_files 0 [(Era5.cexId, ⟨10, 0, 5, true⟩)] false ⟨0, false⟩ 10 =
      ([], ⟨0, false⟩) ∧ (0 : ℕ) ≠ 0 + 1 :=
  ⟨rfl, by norm_num⟩

/-- C8 (amended): an exception raised while processing a single link marks
that link for removal anyway (fail-safe toward reclamation) but does NOT
increment the consecutive-error counter; the counter is incremented exactly
when the cleanup pass as a whole raises past the per-link handlers, and
whenever that increment pushes it strictly past the threshold the shutdown
flag is set (and a set flag is never cleared). -/
theorem C8_reaper_error_handling (now : ℚ) (links : List (String × Era5.CleanLink))
    (passRaises : Bool) (st : Era5.ReaperState) (maxErrors : ℕ) :
    (∀ id l, (id, l) ∈ links → l.raisesOnProcess = true →
      (id, l) ∉ (Era5.cleanup_expired_files now links passRaises st maxErrors).1) ∧
    ((Era5.cleanup_expired_files now links passRaises st maxErrors).2.errorCount =
      st.errorCount + if passRaises then 1 else 0) ∧
    ((Era5.cleanup_expired_files now links passRaises st maxErrors).2.shutdownSet =
      (st.shutdownSet || (passRaises && decide (st.errorCount + 1 > maxErrors)))) := by
  refine ⟨?_, ?_, ?_⟩
  · intro id l hmem hraise hin
    rcases passRaises <;>
      simp only [Era5.cleanup_expired_files, if_pos, if_neg, Bool.false_eq_true,
        not_false_eq_true, ite_false, ite_true] at hin <;>
      rcases List.mem_filter.mp hin with ⟨_, hp⟩ <;>
      simp [Era5.shouldRemove, hraise] at hp
  · rcases passRaises <;> simp [Era5.cleanup_expired_files]
  · rcases passRaises <;> simp [Era5.cleanup_expired_files]

/-- C8 witness: the amended per-link clause applied to the concrete raising
link — it is absent from the surviving registry. -/
theorem C8_reaper_error_handling_witness :
    (Era5.cexId, (⟨10, 0, 5, true⟩ : Era5.CleanLink)) ∉
      (Era5.cleanup_expired_files 0 [(Era5.cexId, ⟨10, 0, 5, true⟩)] false
        ⟨0, false⟩ 10).1 :=
  (C8_reaper_error_handling 0 [(Era5.cexId, ⟨10, 0, 5, true⟩)] false ⟨0, false⟩ 10).1
    Era5.cexId ⟨10, 0, 5, true⟩ (List.mem_singleton.mpr rfl) rfl

/-- C9 counterexample: `init` is among the claimed operation sequence, and it
resets progress to 0: after [init, complete] the reported progress is 100,
but appending one more `init` drops it back to 0 — the reported percentage is
not monotonically non-decreasing over arbitrary sequences containing init. -/
theorem C9_counterexample :
    Era5.pmGetProgress (Era5.pmRun Era5.pmEmpty
      [.init Era5.opA, .complete Era5.opA]) Era5.opA = 100 ∧
    Era5.pmGetProgress (Era5.pmRun Era5.pmEmpty
      [.init Era5.opA, .complete Era5.opA, .init Era5.opA]) Era5.opA = 0 ∧
    ¬(100 ≤ (0 : ℕ)) :=
  ⟨rfl, rfl, by norm_num⟩

/-- C9 (amended): over any sequence of `set_status`, `set_fraction` and
`complete` operations (no re-`init`, which resets progress to 0), starting
from any state whose reported statuses are in the enumeration and whose
progress values are ≤ 100 percent — as in every state the application
reaches — the reported progress of every op id is non-decreasing, and every
reported status stays in the enumeration {submitted, accepted, running,
successful, failed} or the "unknown" default, provided each `set_status`
passes an enumeration value (as every call site does). -/
theorem C9_progress_monotone (s : Era5.PMState) (ops : List Era5.PMOp) (id : String)
    (hinit : ∀ o ∈ ops, Era5.isInit o = false)
    (hstat : ∀ o ∈ ops, Era5.statusArgOk o = true)
    (hs : Era5.statusOk s) (hb : Era5.progressBounded s) :
    Era5.pmGetProgress s id ≤ Era5.pmGetProgress (Era5.pmRun s ops) id ∧
    Era5.statusOk (Era5.pmRun s ops) ∧ Era5.progressBounded (Era5.pmRun s ops) := by
  induction ops generalizing s with
  | nil => exact ⟨le_refl _, hs, hb⟩
  | cons o rest ih =>
    have h1 := Era5.pmApply_mono s o id (hinit o (List.mem_cons_self o rest)) hb
    have h2 := Era5.pmApply_bounded s o hb
    have h3 := Era5.pmApply_statusOk s o (hstat o (List.mem_cons_self o rest)) hs
    have hrest := ih (Era5.pmApply s o)
      (fun o' ho' => hinit o' (List.mem_cons_of_mem o ho'))
      (fun o' ho' => hstat o' (List.mem_cons_of_mem o ho')) h3 h2
    exact ⟨le_trans h1 hrest.1, hrest.2.1, hrest.2.2⟩

/-- C9 witness: the monotonicity component on the empty manager over
[set_status running, complete]. -/
theorem C9_progress_monotone_witness :
    Era5.pmGetProgress Era5.pmEmpty Era5.opA ≤
      Era5.pmGetProgress (Era5.pmRun Era5.pmEmpty
        [.setStatus Era5.opA "running", .complete Era5.opA]) Era5.opA :=
  (C9_progress_monotone Era5.pmEmpty [.setStatus Era5.opA "running", .complete Era5.opA]
    Era5.opA (by intro o ho; fin_cases ho <;> rfl)
    (by intro o ho; fin_cases ho <;> rfl)
    (by intro i; simp [Era5.pmGetStatus, Era5.pmEmpty, Era5.statusEnum])
    (by intro i; simp [Era5.pmGetProgress, Era5.pmEmpty])).1
